import Mathlib

/-!
# Verification of the alTrace trace engine (recorder / player)

A shallow embedding of the parts of `src/altrace_record.c` and
`src/altrace_playback.c` that the frozen claims are about:

* the byte codec (little-endian integers, length-prefixed strings with a
  NULL sentinel),
* the call-stack symbol interning of `IO_ENTRYINFO` / `get_callstack_sym`,
* the error latches (`check_al_error_events`, `alGetError`, `alcGetError`),
* the shadow registry lifecycle (`alcDestroyContext`, `alcCloseDevice`,
  `alDeleteSources`),
* the per-context playlist and the polling pass `check_al_async_states`,
* the player's header check and event loop (`init_altrace_playback`,
  `process_tracelog`), and the player's thread-id map (`IO_ENTRYINFO`).

Machine integers are modelled as `Nat` with explicit reductions modulo
`2^w` where the C code truncates; byte streams are `List Nat` with each
byte below 256.
-/

namespace ALTrace

/-! ## Byte codec (record side writes / playback side reads)

`writele32` / `writele64` in `altrace_record.c` write a value little-endian;
`readle32` / `readle64` in `altrace_playback.c` read it back.  `leBytes w x`
is the list of `w` bytes of `x` in little-endian order (the value is
implicitly truncated to `w` bytes, as the C casts do); `readLE w s` consumes
`w` bytes from the stream `s`, returning `none` on a short read (the C sets
the latched `io_failure` there). -/

def leBytes : Nat → Nat → List Nat
  | 0, _ => []
  | w + 1, x => (x % 256) :: leBytes w (x / 256)

def readLE : Nat → List Nat → Option (Nat × List Nat)
  | 0, s => some (0, s)
  | _ + 1, [] => none
  | w + 1, b :: s =>
    match readLE w s with
    | none => none
    | some (v, rest) => some (b + 256 * v, rest)

theorem leBytes_length (w x : Nat) : (leBytes w x).length = w := by
  induction w generalizing x with
  | zero => rfl
  | succ w ih => simp [leBytes, ih]

/-- Reading back what was written recovers the value modulo `2^(8*w)`,
leaving the rest of the stream untouched. -/
theorem readLE_leBytes (w x : Nat) (rest : List Nat) :
    readLE w (leBytes w x ++ rest) = some (x % 2 ^ (8 * w), rest) := by
  induction w generalizing x with
  | zero => simp [leBytes, readLE, Nat.mod_one]
  | succ w ih =>
    have hpow : 2 ^ (8 * (w + 1)) = 256 * 2 ^ (8 * w) := by
      rw [show 8 * (w + 1) = 8 + 8 * w by ring, pow_add]; norm_num
    simp only [leBytes, List.cons_append, readLE, List.append_eq, ih, hpow,
      Nat.mod_mul]

/-! ## Length-prefixed strings (`IO_STRING` / `IO_BLOB`)

The recorder's `IO_STRING` (altrace_record.c:207) writes a 64-bit length
and the raw bytes (no terminator), with the all-ones sentinel for a NULL
string.  The player's `IO_BLOB` (altrace_playback.c:143) reads the length,
maps the sentinel back to NULL, and otherwise consumes exactly that many
bytes; its `IO_STRING` is `IO_BLOB` ignoring the returned length.  Strings
are byte lists; a nullable string is an `Option`. -/

def NULL_SENTINEL : Nat := 0xFFFFFFFFFFFFFFFF

def IO_STRING_write : Option (List Nat) → List Nat
  | none => leBytes 8 NULL_SENTINEL
  | some bs => leBytes 8 bs.length ++ bs

def IO_BLOB_read (s : List Nat) : Option (Option (List Nat) × List Nat) :=
  match readLE 8 s with
  | none => none
  | some (len, rest) =>
    if len = NULL_SENTINEL then some (none, rest)
    else if len ≤ rest.length then some (some (rest.take len), rest.drop len)
    else none

def IO_STRING_read (s : List Nat) : Option (Option (List Nat) × List Nat) :=
  IO_BLOB_read s

/-- C6: the string codec round-trips.  A NULL string is written as the
64-bit sentinel and decoded back to NULL; any other string (the empty
string included) is written as its 64-bit length followed by exactly its
bytes, and the reader returns the same bytes, so NULL and the empty string
stay distinct.  The length bound is what a C string always satisfies. -/
theorem string_codec_roundtrip :
    (∀ rest : List Nat,
      IO_STRING_read (IO_STRING_write none ++ rest) = some (none, rest)) ∧
    (∀ (bs : List Nat) (rest : List Nat), bs.length < NULL_SENTINEL →
      IO_STRING_read (IO_STRING_write (some bs) ++ rest) =
        some (some bs, rest)) := by
  constructor
  · intro rest
    simp only [IO_STRING_read, IO_STRING_write, IO_BLOB_read, readLE_leBytes]
    have h : NULL_SENTINEL % 2 ^ (8 * 8) = NULL_SENTINEL := by
      apply Nat.mod_eq_of_lt; decide
    rw [h, if_pos rfl]
  · intro bs rest hlen
    simp only [IO_STRING_read, IO_STRING_write, IO_BLOB_read, List.append_assoc,
      readLE_leBytes]
    have hlt : bs.length < 2 ^ (8 * 8) := by
      calc bs.length < NULL_SENTINEL := hlen
        _ < 2 ^ (8 * 8) := by decide
    have h : bs.length % 2 ^ (8 * 8) = bs.length := Nat.mod_eq_of_lt hlt
    rw [h]
    rw [if_neg (Nat.ne_of_lt hlen)]
    rw [if_pos (by simp)]
    rw [List.take_left, List.drop_left]

/-- Witness for C6 at concrete inputs: a two-byte string, the NULL string,
and the empty string all round-trip (NULL and empty decode differently). -/
theorem string_codec_roundtrip_witness :
    IO_STRING_read (IO_STRING_write (some [104, 105]) ++ [9]) =
        some (some [104, 105], [9]) ∧
    IO_STRING_read (IO_STRING_write none ++ []) = some (none, []) ∧
    IO_STRING_read (IO_STRING_write (some []) ++ []) = some (some [], []) :=
  ⟨string_codec_roundtrip.2 [104, 105] [9] (by decide),
   string_codec_roundtrip.1 [],
   string_codec_roundtrip.2 [] [] (by decide)⟩

/-! ## Player thread-id map (`IO_ENTRYINFO`, playback side)

altrace_playback.c keeps `next_mapped_threadid` (initially 0) and a map
from raw 64-bit thread ids to dense ids.  In `IO_ENTRYINFO` (lines
207-241): `threadid = get_mapped_threadid(logthreadid); if (!threadid)
{ threadid = ++next_mapped_threadid; add_threadid_to_map(...); }`.
The map returns 0 for an unknown key. -/

structure ThreadIdMap where
  entries : List (Nat × Nat)
  nextId : Nat

def ThreadIdMap.empty : ThreadIdMap := ⟨[], 0⟩

def lookup_threadid (es : List (Nat × Nat)) (raw : Nat) : Nat :=
  match es.find? (fun e => decide (e.1 = raw)) with
  | some e => e.2
  | none => 0

def get_mapped_threadid (m : ThreadIdMap) (raw : Nat) : Nat :=
  lookup_threadid m.entries raw

/-- One `IO_ENTRYINFO` thread-id resolution step. -/
def map_threadid (m : ThreadIdMap) (raw : Nat) : Nat × ThreadIdMap :=
  let t := get_mapped_threadid m raw
  if t = 0 then
    let t := m.nextId + 1
    (t, ⟨m.entries ++ [(raw, t)], t⟩)
  else
    (t, m)

/-- The reader state after decoding a sequence of events whose caller-info
blocks carried the given raw thread ids, in trace order. -/
def processThreadIds (raws : List Nat) : ThreadIdMap :=
  raws.foldl (fun m raw => (map_threadid m raw).2) ThreadIdMap.empty

/-- The distinct raw ids of a trace, in first-seen order. -/
def firstSeen (raws : List Nat) : List Nat :=
  raws.foldl (fun acc r => if r ∈ acc then acc else acc ++ [r]) []

/-- `l` paired with consecutive ids starting at `k`. -/
def numberedFrom (k : Nat) : List Nat → List (Nat × Nat)
  | [] => []
  | a :: rest => (a, k) :: numberedFrom (k + 1) rest

/-- Position-based id: `k` + index of `r`'s first occurrence in the list,
or 0 when absent. -/
def posFrom (k : Nat) : List Nat → Nat → Nat
  | [], _ => 0
  | a :: rest, r => if a = r then k else posFrom (k + 1) rest r

theorem lookup_numberedFrom (k : Nat) (acc : List Nat) (r : Nat) :
    lookup_threadid (numberedFrom k acc) r = posFrom k acc r := by
  induction acc generalizing k with
  | nil => rfl
  | cons a rest ih =>
    by_cases h : a = r
    · simp only [numberedFrom, posFrom, lookup_threadid]
      rw [List.find?_cons_of_pos _ (by simp [h])]
      simp [h]
    · simp only [numberedFrom, posFrom, lookup_threadid] at ih ⊢
      rw [List.find?_cons_of_neg _ (by simp [h])]
      simp [h, ih]

theorem numberedFrom_append_singleton (k : Nat) (acc : List Nat) (r : Nat) :
    numberedFrom k (acc ++ [r]) = numberedFrom k acc ++ [(r, k + acc.length)] := by
  induction acc generalizing k with
  | nil => simp [numberedFrom]
  | cons a rest ih => simp [numberedFrom, ih]; ring_nf

theorem posFrom_eq_zero_of_not_mem (k : Nat) (acc : List Nat) (r : Nat)
    (h : r ∉ acc) : posFrom k acc r = 0 := by
  induction acc generalizing k with
  | nil => rfl
  | cons a rest ih =>
    simp only [List.mem_cons, not_or] at h
    simp [posFrom, Ne.symm h.1, ih _ h.2]

theorem posFrom_pos_of_mem (k : Nat) (acc : List Nat) (r : Nat)
    (h : r ∈ acc) : k ≤ posFrom k acc r ∧ posFrom k acc r < k + acc.length := by
  induction acc generalizing k with
  | nil => cases h
  | cons a rest ih =>
    by_cases har : a = r
    · simp only [posFrom, if_pos har, List.length_cons]
      omega
    · rcases List.mem_cons.1 h with h' | h'
      · exact absurd h'.symm har
      · obtain ⟨h1, h2⟩ := ih (k + 1) h'
        simp only [posFrom, if_neg har, List.length_cons]
        omega

theorem posFrom_append_left (k : Nat) (acc ext : List Nat) (r : Nat)
    (h : r ∈ acc) : posFrom k (acc ++ ext) r = posFrom k acc r := by
  induction acc generalizing k with
  | nil => cases h
  | cons a rest ih =>
    by_cases har : a = r
    · simp [posFrom, har]
    · rcases List.mem_cons.1 h with h' | h'
      · exact absurd h'.symm har
      · simp [posFrom, har, ih _ h']

theorem posFrom_get (acc : List Nat) (hnd : acc.Nodup) (k i : Nat)
    (hi : i < acc.length) : posFrom k acc (acc.get ⟨i, hi⟩) = k + i := by
  induction acc generalizing k i with
  | nil => cases hi
  | cons a rest ih =>
    cases i with
    | zero => simp [posFrom]
    | succ j =>
      have hj : j < rest.length := by simpa using hi
      have hmem : rest.get ⟨j, hj⟩ ∈ rest := List.get_mem rest j hj
      have hne : a ≠ rest.get ⟨j, hj⟩ := by
        intro hcontra
        exact (List.nodup_cons.1 hnd).1 (hcontra ▸ hmem)
      simp only [List.get_cons_succ, posFrom, if_neg hne]
      rw [ih (List.nodup_cons.1 hnd).2 (k + 1) j hj]
      omega

def processThreadIdsFrom (m : ThreadIdMap) (raws : List Nat) : ThreadIdMap :=
  raws.foldl (fun m raw => (map_threadid m raw).2) m

def firstSeenFrom (acc : List Nat) (raws : List Nat) : List Nat :=
  raws.foldl (fun acc r => if r ∈ acc then acc else acc ++ [r]) acc

theorem processThreadIds_eq_from (raws : List Nat) :
    processThreadIds raws = processThreadIdsFrom ThreadIdMap.empty raws := rfl

theorem firstSeen_eq_from (raws : List Nat) :
    firstSeen raws = firstSeenFrom [] raws := rfl

theorem firstSeenFrom_extends (raws acc : List Nat) :
    ∃ ext, firstSeenFrom acc raws = acc ++ ext := by
  induction raws generalizing acc with
  | nil => exact ⟨[], by simp [firstSeenFrom]⟩
  | cons r rest ih =>
    by_cases h : r ∈ acc
    · obtain ⟨ext, hext⟩ := ih acc
      exact ⟨ext, by simpa [firstSeenFrom, h] using hext⟩
    · obtain ⟨ext, hext⟩ := ih (acc ++ [r])
      refine ⟨[r] ++ ext, ?_⟩
      simpa [firstSeenFrom, h, List.append_assoc] using hext

theorem firstSeenFrom_nodup (raws : List Nat) :
    ∀ acc : List Nat, acc.Nodup → (firstSeenFrom acc raws).Nodup := by
  induction raws with
  | nil => intro acc h; exact h
  | cons r rest ih =>
    intro acc h
    by_cases hmem : r ∈ acc
    · simpa [firstSeenFrom, hmem] using ih acc h
    · have : (acc ++ [r]).Nodup := by
        simp [List.nodup_append, h, hmem]
      simpa [firstSeenFrom, hmem] using ih (acc ++ [r]) this

theorem mem_firstSeenFrom (raws : List Nat) :
    ∀ (acc : List Nat) (r : Nat),
      r ∈ firstSeenFrom acc raws ↔ r ∈ acc ∨ r ∈ raws := by
  induction raws with
  | nil => intro acc r; simp [firstSeenFrom]
  | cons x rest ih =>
    intro acc r
    by_cases hmem : x ∈ acc
    · rw [show firstSeenFrom acc (x :: rest) = firstSeenFrom acc rest by
        simp [firstSeenFrom, hmem]]
      rw [ih]
      constructor
      · rintro (h | h)
        · exact Or.inl h
        · exact Or.inr (List.mem_cons_of_mem _ h)
      · rintro (h | h)
        · exact Or.inl h
        · rcases List.mem_cons.1 h with rfl | h
          · exact Or.inl hmem
          · exact Or.inr h
    · rw [show firstSeenFrom acc (x :: rest) = firstSeenFrom (acc ++ [x]) rest by
        simp [firstSeenFrom, hmem]]
      rw [ih]
      simp only [List.mem_append, List.mem_singleton, List.mem_cons]
      tauto

/-- Fold invariant: after any sequence of caller-info decodes, the reader's
map is exactly the first-seen list of raw ids numbered from 1, and the
counter equals its length. -/
theorem processThreadIdsFrom_inv (raws : List Nat) :
    ∀ (m : ThreadIdMap) (acc : List Nat),
      m.entries = numberedFrom 1 acc → m.nextId = acc.length →
      (processThreadIdsFrom m raws).entries =
          numberedFrom 1 (firstSeenFrom acc raws) ∧
      (processThreadIdsFrom m raws).nextId = (firstSeenFrom acc raws).length := by
  induction raws with
  | nil => intro m acc h1 h2; exact ⟨h1, h2⟩
  | cons r rest ih =>
    intro m acc h1 h2
    by_cases hmem : r ∈ acc
    · have hk : get_mapped_threadid m r = posFrom 1 acc r := by
        rw [get_mapped_threadid, h1, lookup_numberedFrom]
      have hpos := (posFrom_pos_of_mem 1 acc r hmem).1
      have hne : ¬ get_mapped_threadid m r = 0 := by omega
      have hstep : (map_threadid m r).2 = m := by
        simp [map_threadid, get_mapped_threadid] at hne ⊢
        simp [hne]
      have e1 : processThreadIdsFrom m (r :: rest) = processThreadIdsFrom m rest := by
        simp [processThreadIdsFrom, hstep]
      have e2 : firstSeenFrom acc (r :: rest) = firstSeenFrom acc rest := by
        simp [firstSeenFrom, hmem]
      rw [e1, e2]
      exact ih m acc h1 h2
    · have hk : get_mapped_threadid m r = 0 := by
        rw [get_mapped_threadid, h1, lookup_numberedFrom]
        exact posFrom_eq_zero_of_not_mem _ _ _ hmem
      have hstep : (map_threadid m r).2 =
          ⟨m.entries ++ [(r, m.nextId + 1)], m.nextId + 1⟩ := by
        simp [map_threadid, hk]
      have e1 : processThreadIdsFrom m (r :: rest) =
          processThreadIdsFrom ⟨m.entries ++ [(r, m.nextId + 1)], m.nextId + 1⟩ rest := by
        simp [processThreadIdsFrom, hstep]
      have e2 : firstSeenFrom acc (r :: rest) = firstSeenFrom (acc ++ [r]) rest := by
        simp [firstSeenFrom, hmem]
      rw [e1, e2]
      apply ih
      · simp [h1, h2, numberedFrom_append_singleton, Nat.add_comm]
      · simp [h2]

theorem get_mapped_processThreadIds (raws : List Nat) (r : Nat) :
    get_mapped_threadid (processThreadIds raws) r =
      posFrom 1 (firstSeen raws) r := by
  have h := processThreadIdsFrom_inv raws ThreadIdMap.empty [] rfl rfl
  rw [processThreadIds_eq_from, firstSeen_eq_from, get_mapped_threadid, h.1,
    lookup_numberedFrom]

/-- C9: the reader's thread-id map assigns dense ids in first-seen order
starting at 1 (the i-th distinct raw id maps to i+1), a raw id keeps its
dense id for the rest of the trace, and the set of mapped ids is exactly
{1, …, T} where T is the number of distinct raw ids. -/
theorem threadid_map_dense_first_seen (raws : List Nat) :
    ((firstSeen raws).Nodup ∧ ∀ r, r ∈ firstSeen raws ↔ r ∈ raws) ∧
    (∀ (i : Nat) (hi : i < (firstSeen raws).length),
      get_mapped_threadid (processThreadIds raws)
        ((firstSeen raws).get ⟨i, hi⟩) = i + 1) ∧
    (∀ pre suf r, raws = pre ++ suf →
      get_mapped_threadid (processThreadIds pre) r ≠ 0 →
      get_mapped_threadid (processThreadIds raws) r =
        get_mapped_threadid (processThreadIds pre) r) ∧
    (∀ i, (∃ r, r ∈ raws ∧
        get_mapped_threadid (processThreadIds raws) r = i) ↔
      1 ≤ i ∧ i ≤ (firstSeen raws).length) := by
  have hnd : (firstSeen raws).Nodup := by
    rw [firstSeen_eq_from]; exact firstSeenFrom_nodup raws [] List.nodup_nil
  have hmemiff : ∀ r, r ∈ firstSeen raws ↔ r ∈ raws := by
    intro r
    rw [firstSeen_eq_from, mem_firstSeenFrom]
    simp
  refine ⟨⟨hnd, hmemiff⟩, ?_, ?_, ?_⟩
  · intro i hi
    rw [get_mapped_processThreadIds, posFrom_get _ hnd 1 i hi, Nat.add_comm]
  · intro pre suf r heq hne
    subst heq
    rw [get_mapped_processThreadIds] at hne ⊢
    rw [get_mapped_processThreadIds]
    have hrmem : r ∈ firstSeen pre := by
      by_contra hnot
      exact hne (posFrom_eq_zero_of_not_mem _ _ _ hnot)
    have hfs : firstSeen (pre ++ suf) = firstSeen pre ++
        Classical.choose (firstSeenFrom_extends suf (firstSeen pre)) := by
      rw [firstSeen_eq_from, firstSeenFrom, List.foldl_append]
      exact Classical.choose_spec (firstSeenFrom_extends suf (firstSeen pre))
    rw [hfs, posFrom_append_left _ _ _ _ hrmem]
  · intro i
    constructor
    · rintro ⟨r, hr, hi⟩
      have hrfs : r ∈ firstSeen raws := (hmemiff r).2 hr
      have := posFrom_pos_of_mem 1 (firstSeen raws) r hrfs
      rw [get_mapped_processThreadIds] at hi
      omega
    · rintro ⟨h1, h2⟩
      have hi : i - 1 < (firstSeen raws).length := by omega
      refine ⟨(firstSeen raws).get ⟨i - 1, hi⟩, ?_, ?_⟩
      · exact (hmemiff _).1 (List.get_mem _ _ hi)
      · rw [get_mapped_processThreadIds, posFrom_get _ hnd 1 (i - 1) hi]
        omega

/-- Witness for C9 on the concrete trace of raw ids `[10, 20, 10, 30]`:
the third distinct id maps to 3; the id assigned to 10 after the first two
events is kept at the end; dense id 2 is attained. -/
theorem threadid_map_dense_first_seen_witness :
    get_mapped_threadid (processThreadIds [10, 20, 10, 30])
        ((firstSeen [10, 20, 10, 30]).get ⟨2, by decide⟩) = 3 ∧
    get_mapped_threadid (processThreadIds [10, 20, 10, 30]) 10 =
      get_mapped_threadid (processThreadIds [10, 20]) 10 ∧
    (∃ r, r ∈ [10, 20, 10, 30] ∧
      get_mapped_threadid (processThreadIds [10, 20, 10, 30]) r = 2) :=
  ⟨(threadid_map_dense_first_seen [10, 20, 10, 30]).2.1 2 (by decide),
   (threadid_map_dense_first_seen [10, 20, 10, 30]).2.2.1 [10, 20] [10, 30] 10
     rfl (by decide),
   ((threadid_map_dense_first_seen [10, 20, 10, 30]).2.2.2 2).2 (by decide)⟩

/-! ## Error latches (record side)

`check_al_error_events` (altrace_record.c:368) returns `AL_NO_ERROR`
immediately when no context is current; otherwise it drains the real
error with `REAL_alGetError`, and on a non-zero error emits an
`ALEE_ALERROR_TRIGGERED` event and stores the error into the current
context's latch only if that latch is clear.  (The
`current_context ? ... : &null_context_errorlatch` alternative inside it is
unreachable because of the early return.)  `alGetError` (line 1330) reads
and clears either the null-context latch or the current context's latch,
then runs the post-call checks of `IO_END`.  `check_alc_error_events`
(line 383) and `alcGetError` (line 1021) do the same per device.

`realALError` models the pending error state inside the real AL
implementation: `REAL_alGetError` returns it and clears it. -/

def AL_NO_ERROR : Nat := 0
def ALC_NO_ERROR : Nat := 0
def AL_INVALID_NAME : Nat := 0xA001
def AL_INVALID_ENUM : Nat := 0xA002
def AL_INVALID_OPERATION : Nat := 0xA004
def ALC_INVALID_DEVICE : Nat := 0xA001
def ALC_INVALID_CONTEXT : Nat := 0xA002

structure RecErrState where
  hasCurrentContext : Bool
  ctxLatch : Nat
  nullLatch : Nat
  realALError : Nat

/-- `check_al_error_events`: result, new state, emitted
`api-error-triggered` payloads. -/
def check_al_error_events (st : RecErrState) : Nat × RecErrState × List Nat :=
  if st.hasCurrentContext = false then (AL_NO_ERROR, st, [])
  else
    let alerr := st.realALError
    let st1 : RecErrState := { st with realALError := AL_NO_ERROR }
    if alerr ≠ AL_NO_ERROR then
      let st2 : RecErrState :=
        if st1.ctxLatch = AL_NO_ERROR then { st1 with ctxLatch := alerr } else st1
      (alerr, st2, [alerr])
    else
      (alerr, st1, [])

/-- The wrapped `alGetError` entry point, body plus the `IO_END` error
check (the async-state check does not touch error state). -/
def alGetError_wrapped (st : RecErrState) : Nat × RecErrState × List Nat :=
  let body :=
    if st.hasCurrentContext = false then
      (st.nullLatch, { st with nullLatch := AL_NO_ERROR })
    else
      (st.ctxLatch, { st with ctxLatch := AL_NO_ERROR })
  let chk := check_al_error_events body.2
  (body.1, chk.2.1, chk.2.2)

structure AlcDevState where
  errorlatch : Nat
  realALCError : Nat

/-- `check_alc_error_events` for a (non-NULL) device wrapper. -/
def check_alc_error_events (dev : AlcDevState) : Nat × AlcDevState × List Nat :=
  let alcerr := dev.realALCError
  let dev1 : AlcDevState := { dev with realALCError := ALC_NO_ERROR }
  if alcerr ≠ ALC_NO_ERROR then
    let dev2 : AlcDevState :=
      if dev1.errorlatch = ALC_NO_ERROR then { dev1 with errorlatch := alcerr }
      else dev1
    (alcerr, dev2, [alcerr])
  else
    (alcerr, dev1, [])

/-- The wrapped `alcGetError` entry point, body plus `IO_END_ALC(device)`. -/
def alcGetError_wrapped (dev : AlcDevState) : Nat × AlcDevState × List Nat :=
  let retval := dev.errorlatch
  let dev1 : AlcDevState := { dev with errorlatch := ALC_NO_ERROR }
  let chk := check_alc_error_events dev1
  (retval, chk.2.1, chk.2.2)

/-- C2: each latch holds the first error observed since it was last
cleared — a latched error is never overwritten, and the first error seen
while the latch is clear is latched (and emitted) — and the retrieval
calls return the latch, reset it, and with no other activity a second
retrieval returns NO_ERROR, for both the AL context latch and the ALC
device latch. -/
theorem error_latch_first_wins_and_get_resets :
    (∀ st : RecErrState, st.hasCurrentContext = true →
        st.ctxLatch ≠ AL_NO_ERROR →
        (check_al_error_events st).2.1.ctxLatch = st.ctxLatch) ∧
    (∀ st : RecErrState, st.hasCurrentContext = true →
        st.ctxLatch = AL_NO_ERROR → st.realALError ≠ AL_NO_ERROR →
        (check_al_error_events st).2.1.ctxLatch = st.realALError ∧
        (check_al_error_events st).2.2 = [st.realALError]) ∧
    (∀ dev : AlcDevState, dev.errorlatch ≠ ALC_NO_ERROR →
        (check_alc_error_events dev).2.1.errorlatch = dev.errorlatch) ∧
    (∀ dev : AlcDevState, dev.errorlatch = ALC_NO_ERROR →
        dev.realALCError ≠ ALC_NO_ERROR →
        (check_alc_error_events dev).2.1.errorlatch = dev.realALCError ∧
        (check_alc_error_events dev).2.2 = [dev.realALCError]) ∧
    (∀ st : RecErrState, st.hasCurrentContext = true →
        st.realALError = AL_NO_ERROR →
        (alGetError_wrapped st).1 = st.ctxLatch ∧
        (alGetError_wrapped (alGetError_wrapped st).2.1).1 = AL_NO_ERROR) ∧
    (∀ dev : AlcDevState, dev.realALCError = ALC_NO_ERROR →
        (alcGetError_wrapped dev).1 = dev.errorlatch ∧
        (alcGetError_wrapped (alcGetError_wrapped dev).2.1).1 = ALC_NO_ERROR) := by
  refine ⟨?_, ?_, ?_, ?_, ?_, ?_⟩
  · intro st hctx hlatch
    by_cases herr : st.realALError = AL_NO_ERROR <;>
      simp [check_al_error_events, hctx, hlatch, herr]
  · intro st hctx hlatch herr
    simp [check_al_error_events, hctx, hlatch, herr]
  · intro dev hlatch
    by_cases herr : dev.realALCError = ALC_NO_ERROR <;>
      simp [check_alc_error_events, hlatch, herr]
  · intro dev hlatch herr
    simp [check_alc_error_events, hlatch, herr]
  · intro st hctx hreal
    constructor
    · simp [alGetError_wrapped, hctx]
    · simp [alGetError_wrapped, check_al_error_events, hctx, hreal, AL_NO_ERROR]
  · intro dev hreal
    constructor
    · simp [alcGetError_wrapped]
    · simp [alcGetError_wrapped, check_alc_error_events, hreal, ALC_NO_ERROR]

/-- Witness for C2 at concrete states: a context latch holding
`AL_INVALID_ENUM` survives a later `AL_INVALID_OPERATION`; a clear device
latch latches `ALC_INVALID_DEVICE`; double retrieval yields NO_ERROR. -/
theorem error_latch_first_wins_and_get_resets_witness :
    (check_al_error_events ⟨true, AL_INVALID_ENUM, 0, AL_INVALID_OPERATION⟩).2.1.ctxLatch
        = AL_INVALID_ENUM ∧
    (check_alc_error_events ⟨ALC_NO_ERROR, ALC_INVALID_DEVICE⟩).2.1.errorlatch
        = ALC_INVALID_DEVICE ∧
    (alGetError_wrapped
        (alGetError_wrapped ⟨true, AL_INVALID_ENUM, 0, AL_NO_ERROR⟩).2.1).1
        = AL_NO_ERROR ∧
    (alcGetError_wrapped
        (alcGetError_wrapped ⟨AL_INVALID_ENUM, ALC_NO_ERROR⟩).2.1).1
        = ALC_NO_ERROR :=
  ⟨error_latch_first_wins_and_get_resets.1 _ rfl (by decide),
   (error_latch_first_wins_and_get_resets.2.2.2.1 _ rfl (by decide)).1,
   (error_latch_first_wins_and_get_resets.2.2.2.2.1 _ rfl rfl).2,
   (error_latch_first_wins_and_get_resets.2.2.2.2.2 _ rfl).2⟩

/-- C10: with no current context the post-call error check is a no-op that
returns `AL_NO_ERROR` without querying the real API (the pending real
error is neither drained, latched nor emitted), and `alGetError` returns
and clears the dedicated process-global null-context latch. -/
theorem null_context_error_handling (st : RecErrState)
    (h : st.hasCurrentContext = false) :
    check_al_error_events st = (AL_NO_ERROR, st, []) ∧
    alGetError_wrapped st =
      (st.nullLatch, { st with nullLatch := AL_NO_ERROR }, []) := by
  constructor
  · simp [check_al_error_events, h]
  · simp [alGetError_wrapped, check_al_error_events, h]

/-- Witness for C10: with no context current and a pending real AL error
`AL_INVALID_OPERATION`, `alGetError` returns the null-context latch value
`AL_INVALID_NAME`, clears only that latch, emits nothing, and leaves the
real pending error in place. -/
theorem null_context_error_handling_witness :
    check_al_error_events ⟨false, 0, AL_INVALID_NAME, AL_INVALID_OPERATION⟩ =
      (AL_NO_ERROR, ⟨false, 0, AL_INVALID_NAME, AL_INVALID_OPERATION⟩, []) ∧
    alGetError_wrapped ⟨false, 0, AL_INVALID_NAME, AL_INVALID_OPERATION⟩ =
      (AL_INVALID_NAME, ⟨false, 0, AL_NO_ERROR, AL_INVALID_OPERATION⟩, []) :=
  ⟨(null_context_error_handling _ rfl).1,
   (null_context_error_handling _ rfl).2⟩

/-! ## Shadow record lifecycle at close/delete calls

`alcCloseDevice` (altrace_record.c:768) and `alcCaptureCloseDevice` (696)
unlink and free the device shadow only when the real call returned
`ALC_TRUE`.  `alDeleteSources` (1790) and `alDeleteBuffers` (2377) unlink
and free only when `check_al_error_events() == AL_NO_ERROR`.
`alcDestroyContext` (995) calls the real function and then unlinks and
frees the context shadow unconditionally — the line
`// !!! FIXME: see if this triggered an error and don't clean up if so.`
marks the missing success check.  Records are modelled by their names;
unlinking a record from its intrusive list is `List.erase` /
removal of the named elements. -/

/-- `alcCloseDevice` shadow effect on the global device list (the
`null_device` sentinel is not represented; the real call's `ALCboolean`
result is `retval`). -/
def alcCloseDevice_shadow (devices : List Nat) (dev : Nat)
    (retval : Bool) : List Nat :=
  if retval then devices.erase dev else devices

/-- `alcDestroyContext` shadow effect on the owning device's context
list: cleanup happens for any non-NULL context, with the real call's
latched error never consulted. -/
def alcDestroyContext_shadow (contexts : List Nat) (ctx : Option Nat) :
    List Nat :=
  match ctx with
  | none => contexts
  | some c => contexts.erase c

/-- `alDeleteSources` shadow effect on the source records and the
playlist: the loop frees each named source (and its playlist linkage)
only when the post-call error check came back clean. -/
def alDeleteSources_shadow (sources playlist names : List Nat)
    (checkResult : Nat) : List Nat × List Nat :=
  if checkResult = AL_NO_ERROR then
    (sources.filter (fun s => ! names.contains s),
     playlist.filter (fun s => ! names.contains s))
  else
    (sources, playlist)

/-- C1 is a code bug at `alcDestroyContext`: with context 7 the device's
only context and the real call raising `ALC_INVALID_CONTEXT` (which the
`IO_END_ALC` check latches into the device), the shadow record is still
unlinked and freed — while `alcCloseDevice` on a failed close and
`alDeleteSources` under a latched error do keep their records, as the
claim demands. -/
theorem alcDestroyContext_frees_despite_error :
    (check_alc_error_events ⟨ALC_NO_ERROR, ALC_INVALID_CONTEXT⟩).2.1.errorlatch
        = ALC_INVALID_CONTEXT ∧
    alcDestroyContext_shadow [7] (some 7) = [] ∧
    alcCloseDevice_shadow [3] 3 false = [3] ∧
    alcCloseDevice_shadow [3] 3 true = [] ∧
    alDeleteSources_shadow [5] [5] [5] AL_INVALID_OPERATION = ([5], [5]) ∧
    alDeleteSources_shadow [5] [5] [5] AL_NO_ERROR = ([], []) := by
  refine ⟨by decide, by decide, by decide, by decide, by decide, by decide⟩

/-! ## The per-context playlist and the polling pass

`SourceWrapper` carries `playlist_prev` / `playlist_next` pointers
(NULL = `none`) and the cached `state`; `ctx->playlist` is the head
pointer.  `add_source_to_playlist` (altrace_record.c:2106) prepends a
source when `src && ctx && !src->playlist_next && !src->playlist_prev`.
The source-polling part of `check_al_async_states` (2729-2748) walks the
playlist saving `next` first, re-queries the real source state
(`check_source_state`, modelled here by the single tracked `state`
column), and unlinks the source when the refreshed state is not
`AL_PLAYING`.  The heap of sources is a function from names to nodes. -/

def AL_INITIAL : Nat := 0x1011
def AL_PLAYING : Nat := 0x1012
def AL_PAUSED : Nat := 0x1013
def AL_STOPPED : Nat := 0x1014

structure SrcNode where
  state : Nat
  playlist_prev : Option Nat
  playlist_next : Option Nat

structure CtxPoll where
  srcKnown : Nat → Bool
  nodes : Nat → SrcNode
  playlist : Option Nat

def updNode (nodes : Nat → SrcNode) (name : Nat) (f : SrcNode → SrcNode) :
    Nat → SrcNode :=
  fun n => if n = name then f (nodes n) else nodes n

/-- `add_source_to_playlist`, statement by statement. -/
def add_source_to_playlist (st : CtxPoll) (name : Nat) : CtxPoll :=
  if st.srcKnown name ∧ (st.nodes name).playlist_next = none ∧
      (st.nodes name).playlist_prev = none then
    let oldHead := st.playlist
    let nodes1 := updNode st.nodes name
      (fun nd => { nd with playlist_prev := none, playlist_next := oldHead })
    let st1 : CtxPoll := { st with nodes := nodes1, playlist := some name }
    match oldHead with
    | some h =>
        let nodes2 := updNode st1.nodes h
          (fun nd => { nd with playlist_prev := some name })
        { st1 with nodes := nodes2 }
    | none => st1
  else
    st

/-- The playlist unlink inside `check_al_async_states` (2737-2746), with
`next` already saved; every C statement is one heap update, in order. -/
def unlink_from_playlist (st0 : CtxPoll) (src : Nat) (next : Option Nat) :
    CtxPoll :=
  let st1 : CtxPoll :=
    match next with
    | some n =>
        let nodes1 := updNode st0.nodes n
          (fun nd => { nd with playlist_prev := (st0.nodes src).playlist_prev })
        { st0 with nodes := nodes1 }
    | none => st0
  let st2 : CtxPoll :=
    match (st1.nodes src).playlist_prev with
    | some p =>
        let nodes2 := updNode st1.nodes p
          (fun nd => { nd with playlist_next := next })
        { st1 with nodes := nodes2 }
    | none => { st1 with playlist := next }
  let nodes3 := updNode st2.nodes src
    (fun nd => { nd with playlist_prev := none, playlist_next := none })
  { st2 with nodes := nodes3 }

/-- The source loop of one polling pass, over the real states `real`.
Returns the new state and the names polled, in order.  The C loop has no
bound; `fuel` caps the model — running out of fuel means the C loop is
still running (it never is on a well-formed list, which shrinks). -/
def pollLoop (real : Nat → Nat) : Nat → Option Nat → CtxPoll →
    CtxPoll × List Nat
  | 0, _, st => (st, [])
  | _ + 1, none, st => (st, [])
  | fuel + 1, some src, st =>
    let next := (st.nodes src).playlist_next
    let nodes1 := updNode st.nodes src (fun nd => { nd with state := real src })
    let st1 : CtxPoll := { st with nodes := nodes1 }
    let st2 := if real src ≠ AL_PLAYING then unlink_from_playlist st1 src next
               else st1
    let rest := pollLoop real fuel next st2
    (rest.1, src :: rest.2)

/-- One polling pass over a context, as `check_al_async_states` runs it. -/
def check_al_async_pass (real : Nat → Nat) (fuel : Nat) (st : CtxPoll) :
    CtxPoll × List Nat :=
  pollLoop real fuel st.playlist st

/-- The state after `alSourcePlay(5)` on a fresh source in an empty
playlist, followed by its end-of-call polling pass observing it PLAYING:
source 5 is the sole playlist member with both links NULL. -/
def solePlayingSource : CtxPoll :=
  { srcKnown := fun n => n == 5
    nodes := fun n =>
      if n = 5 then ⟨AL_PLAYING, none, none⟩ else ⟨AL_INITIAL, none, none⟩
    playlist := some 5 }

/-- C3 is a code bug in `add_source_to_playlist`: its
`!playlist_next && !playlist_prev` guard cannot distinguish a sole
playlist member from an unlinked source, so a second `alSourcePlay` on
the only playing source links it to itself.  The next polling pass then
polls that source once per loop step for as long as it stays PLAYING
(the C loop never exits), and polls it twice in the pass that sees it
STOPPED — against the claim that each source is polled at most once per
pass.  (The first conjunct checks the model: the replayed sole source
becomes its own neighbor.) -/
theorem playlist_double_play_self_link :
    ((add_source_to_playlist solePlayingSource 5).nodes 5).playlist_next
        = some 5 ∧
    ((add_source_to_playlist solePlayingSource 5).nodes 5).playlist_prev
        = some 5 ∧
    (check_al_async_pass (fun _ => AL_PLAYING) 10
        (add_source_to_playlist solePlayingSource 5)).2
        = List.replicate 10 5 ∧
    (check_al_async_pass (fun _ => AL_STOPPED) 10
        (add_source_to_playlist solePlayingSource 5)).2 = [5, 5] := by
  refine ⟨by decide, by decide, by decide, by decide⟩

/-! ## Call-stack symbol interning (`get_callstack_sym`, `IO_ENTRYINFO`)

`get_callstack_sym` (altrace_record.c:277) consults the frame map; on a
miss it symbolicates the frame (here the oracle `symOracle`, `none` when
`backtrace_symbols` yields nothing usable), interns a successful result
and reports `seen_before = 0`.  `IO_ENTRYINFO` (298) walks the captured
frames; on `(str == NULL) && !seen_before` it breaks (dropping that frame
and everything below), collects the fresh pairs, emits them — when any —
as one `ALEE_NEW_CALLSTACK_SYMS` event, and then writes the call event
whose caller-info holds only the kept frame addresses.  Symbol strings
are modelled as `Nat` codes; the map is never pruned during recording. -/

inductive TraceEvent where
  | syms (pairs : List (Nat × Nat))
  | call (entryid : Nat) (frames : List Nat)
deriving DecidableEq

abbrev FrameMap := List (Nat × Nat)

def lookup_stackframe (m : FrameMap) (f : Nat) : Option Nat :=
  match m.find? (fun e => decide (e.1 = f)) with
  | some e => some e.2
  | none => none

/-- `get_callstack_sym`: (resolved symbol or NULL, seen_before, map). -/
def get_callstack_sym (symOracle : Nat → Option Nat) (m : FrameMap)
    (f : Nat) : Option Nat × Bool × FrameMap :=
  match lookup_stackframe m f with
  | some s => (some s, true, m)
  | none =>
    match symOracle f with
    | some s => (some s, false, (f, s) :: m)
    | none => (none, false, m)

/-- The frame loop of `IO_ENTRYINFO`: kept frames, new (addr, sym) pairs
in encounter order, updated map.  The `(none, true, _)` arm mirrors the
C condition exactly; `get_callstack_sym` never produces it because NULL
symbols are not interned. -/
def entryLoop (symOracle : Nat → Option Nat) :
    FrameMap → List Nat → List Nat × List (Nat × Nat) × FrameMap
  | m, [] => ([], [], m)
  | m, f :: rest =>
    match get_callstack_sym symOracle m f with
    | (none, false, m1) => ([], [], m1)
    | (none, true, m1) =>
      let r := entryLoop symOracle m1 rest
      (f :: r.1, r.2.1, r.2.2)
    | (some s, seen, m1) =>
      let r := entryLoop symOracle m1 rest
      (f :: r.1, if seen then r.2.1 else (f, s) :: r.2.1, r.2.2)

/-- `IO_ENTRYINFO`: the events one wrapped call contributes for symbol
bookkeeping — an optional *new-callstack-symbols* batch strictly before
the call event itself. -/
def IO_ENTRYINFO_record (symOracle : Nat → Option Nat) (m : FrameMap)
    (entryid : Nat) (callstack : List Nat) : List TraceEvent × FrameMap :=
  let r := entryLoop symOracle m callstack
  ((if r.2.1 = [] then [] else [TraceEvent.syms r.2.1]) ++
      [TraceEvent.call entryid r.1],
   r.2.2)

/-- A whole recording session: the calls' entry ids and raw callstacks,
in order. -/
def recordTrace (symOracle : Nat → Option Nat) :
    FrameMap → List (Nat × List Nat) → List TraceEvent × FrameMap
  | m, [] => ([], m)
  | m, (eid, cs) :: rest =>
    let r := IO_ENTRYINFO_record symOracle m eid cs
    let rr := recordTrace symOracle r.2 rest
    (r.1 ++ rr.1, rr.2)

/-- Occurrences of `addr` across all *new-callstack-symbols* events. -/
def emitCount (addr : Nat) : List TraceEvent → Nat
  | [] => 0
  | TraceEvent.syms ps :: rest =>
    (ps.filter (fun p => decide (p.1 = addr))).length + emitCount addr rest
  | TraceEvent.call _ _ :: rest => emitCount addr rest

/-- Does `addr` appear in some call event's caller-info? -/
def usedInTrace (addr : Nat) : List TraceEvent → Bool
  | [] => false
  | TraceEvent.syms _ :: rest => usedInTrace addr rest
  | TraceEvent.call _ fs :: rest => fs.contains addr || usedInTrace addr rest

/-- Scanning forward with `seen` = "a syms event carrying `addr` has
already gone by": every call event using `addr` is strictly preceded by
such a syms event. -/
def symsBeforeUse (addr : Nat) : Bool → List TraceEvent → Bool
  | _, [] => true
  | seen, TraceEvent.syms ps :: rest =>
    symsBeforeUse addr (seen || ps.any (fun p => p.1 == addr)) rest
  | seen, TraceEvent.call _ fs :: rest =>
    (!(fs.contains addr) || seen) && symsBeforeUse addr seen rest

def countPairs (addr : Nat) (ps : List (Nat × Nat)) : Nat :=
  (ps.filter (fun p => decide (p.1 = addr))).length

theorem entryLoop_spec (symOracle : Nat → Option Nat) (cs : List Nat) :
    ∀ m : FrameMap,
      (∀ a s, lookup_stackframe m a = some s →
        lookup_stackframe (entryLoop symOracle m cs).2.2 a = some s) ∧
      (∀ a, (lookup_stackframe (entryLoop symOracle m cs).2.2 a).isSome =
        ((lookup_stackframe m a).isSome ||
          (entryLoop symOracle m cs).2.1.any (fun p => p.1 == a))) ∧
      (∀ a, countPairs a (entryLoop symOracle m cs).2.1 =
        if (lookup_stackframe m a).isSome then 0
        else if (lookup_stackframe (entryLoop symOracle m cs).2.2 a).isSome
          then 1 else 0) ∧
      (∀ f, f ∈ (entryLoop symOracle m cs).1 →
        (lookup_stackframe (entryLoop symOracle m cs).2.2 f).isSome) := by
  induction cs with
  | nil =>
    intro m
    refine ⟨fun a s h => h, fun a => by simp [entryLoop, countPairs],
      fun a => ?_, fun f hf => absurd hf (by simp [entryLoop])⟩
    simp only [entryLoop, countPairs, List.filter_nil, List.length_nil]
    by_cases h : (lookup_stackframe m a).isSome <;> simp [h]
  | cons f rest ih =>
    intro m
    rcases hl : lookup_stackframe m f with _ | s
    · rcases ho : symOracle f with _ | s
      · -- break: frame fails symbolication and was not seen before
        have he : entryLoop symOracle m (f :: rest) = ([], [], m) := by
          simp [entryLoop, get_callstack_sym, hl, ho]
        refine ⟨fun a s h => by simpa [he] using h,
          fun a => by simp [he], fun a => ?_, fun g hg => absurd hg (by simp [he])⟩
        simp only [he, countPairs, List.filter_nil, List.length_nil]
        by_cases h : (lookup_stackframe m a).isSome <;> simp [h]
      · -- fresh frame, symbolication succeeded: interned and collected
        have hm1 : ∀ a, lookup_stackframe ((f, s) :: m) a =
            if f = a then some s else lookup_stackframe m a := by
          intro a
          by_cases h : f = a <;>
            simp [lookup_stackframe, List.find?_cons, h]
        obtain ⟨ih1, ih2, ih3, ih4⟩ := ih ((f, s) :: m)
        have he : entryLoop symOracle m (f :: rest) =
            (f :: (entryLoop symOracle ((f, s) :: m) rest).1,
             (f, s) :: (entryLoop symOracle ((f, s) :: m) rest).2.1,
             (entryLoop symOracle ((f, s) :: m) rest).2.2) := by
          simp [entryLoop, get_callstack_sym, hl, ho]
        refine ⟨?_, ?_, ?_, ?_⟩
        · intro a t h
          have haf : ¬ f = a := by
            intro hfa; rw [← hfa] at h; rw [hl] at h; cases h
          have : lookup_stackframe ((f, s) :: m) a = some t := by
            rw [hm1, if_neg haf]; exact h
          simpa [he] using ih1 a t this
        · intro a
          rw [he]
          by_cases haf : f = a
          · subst haf
            have : lookup_stackframe ((f, s) :: m) f = some s := by
              rw [hm1, if_pos rfl]
            have hsome := ih1 f s this
            simp [hsome, hl]
          · have := ih2 a
            rw [hm1, if_neg haf] at this
            simp only [List.any_cons]
            rw [this]
            have : ((f, s).1 == a) = false := by
              simp [haf]
            simp [this]
        · intro a
          rw [he]
          by_cases haf : f = a
          · subst haf
            have hsome0 : lookup_stackframe ((f, s) :: m) f = some s := by
              rw [hm1, if_pos rfl]
            have h3 := ih3 f
            rw [hsome0] at h3
            simp only [Option.isSome_some, if_pos] at h3
            have hcnt : countPairs f ((f, s) ::
                (entryLoop symOracle ((f, s) :: m) rest).2.1) =
                1 + countPairs f (entryLoop symOracle ((f, s) :: m) rest).2.1 := by
              simp [countPairs, Nat.add_comm]
            rw [hcnt, h3]
            have hsome := ih1 f s hsome0
            simp [hsome, hl]
          · have h3 := ih3 a
            rw [hm1, if_neg haf] at h3
            have hcnt : countPairs a ((f, s) ::
                (entryLoop symOracle ((f, s) :: m) rest).2.1) =
                countPairs a (entryLoop symOracle ((f, s) :: m) rest).2.1 := by
              simp [countPairs, haf]
            rw [hcnt]
            exact h3
        · intro g hg
          rw [he] at hg ⊢
          rcases List.mem_cons.1 hg with rfl | hg'
          · have : lookup_stackframe ((g, s) :: m) g = some s := by
              rw [hm1, if_pos rfl]
            simpa using (Option.isSome_iff_exists.2 ⟨s, ih1 g s this⟩)
          · exact ih4 g hg'
    · -- frame already interned: kept, nothing collected, map unchanged
      obtain ⟨ih1, ih2, ih3, ih4⟩ := ih m
      have he : entryLoop symOracle m (f :: rest) =
          (f :: (entryLoop symOracle m rest).1,
           (entryLoop symOracle m rest).2.1,
           (entryLoop symOracle m rest).2.2) := by
        simp [entryLoop, get_callstack_sym, hl]
      refine ⟨fun a t h => by simpa [he] using ih1 a t h,
        fun a => by rw [he]; exact ih2 a,
        fun a => by rw [he]; exact ih3 a, ?_⟩
      intro g hg
      rw [he] at hg ⊢
      rcases List.mem_cons.1 hg with rfl | hg'
      · exact Option.isSome_iff_exists.2 ⟨s, ih1 g s hl⟩
      · exact ih4 g hg'

theorem emitCount_append (a : Nat) (xs ys : List TraceEvent) :
    emitCount a (xs ++ ys) = emitCount a xs + emitCount a ys := by
  induction xs with
  | nil => simp [emitCount]
  | cons e rest ih => cases e <;> simp [emitCount, ih, Nat.add_assoc]

theorem usedInTrace_append (a : Nat) (xs ys : List TraceEvent) :
    usedInTrace a (xs ++ ys) = (usedInTrace a xs || usedInTrace a ys) := by
  induction xs with
  | nil => simp [usedInTrace]
  | cons e rest ih => cases e <;> simp [usedInTrace, ih, Bool.or_assoc]

theorem recordTrace_spec (symOracle : Nat → Option Nat)
    (calls : List (Nat × List Nat)) :
    ∀ m : FrameMap,
      (∀ a s, lookup_stackframe m a = some s →
        lookup_stackframe (recordTrace symOracle m calls).2 a = some s) ∧
      (∀ a, emitCount a (recordTrace symOracle m calls).1 =
        if (lookup_stackframe m a).isSome then 0
        else if (lookup_stackframe (recordTrace symOracle m calls).2 a).isSome
          then 1 else 0) ∧
      (∀ a, usedInTrace a (recordTrace symOracle m calls).1 = true →
        (lookup_stackframe (recordTrace symOracle m calls).2 a).isSome) ∧
      (∀ a, symsBeforeUse a (lookup_stackframe m a).isSome
        (recordTrace symOracle m calls).1 = true) := by
  induction calls with
  | nil =>
    intro m
    refine ⟨fun a s h => h, ?_, ?_, fun a => rfl⟩
    · intro a
      simp only [recordTrace, emitCount]
      by_cases h : (lookup_stackframe m a).isSome <;> simp [h]
    · intro a h
      simp [recordTrace, usedInTrace] at h
  | cons c rest ih =>
    intro m
    obtain ⟨eid, cs⟩ := c
    obtain ⟨e1, e2, e3, e4⟩ := entryLoop_spec symOracle cs m
    obtain ⟨ih1, ih2, ih3, ih4⟩ := ih (entryLoop symOracle m cs).2.2
    have he : recordTrace symOracle m ((eid, cs) :: rest) =
        (((if (entryLoop symOracle m cs).2.1 = [] then []
            else [TraceEvent.syms (entryLoop symOracle m cs).2.1]) ++
          [TraceEvent.call eid (entryLoop symOracle m cs).1]) ++
          (recordTrace symOracle (entryLoop symOracle m cs).2.2 rest).1,
         (recordTrace symOracle (entryLoop symOracle m cs).2.2 rest).2) := by
      simp [recordTrace, IO_ENTRYINFO_record]
    have hstepEmit : ∀ a, emitCount a
        ((if (entryLoop symOracle m cs).2.1 = [] then []
            else [TraceEvent.syms (entryLoop symOracle m cs).2.1]) ++
          [TraceEvent.call eid (entryLoop symOracle m cs).1]) =
        countPairs a (entryLoop symOracle m cs).2.1 := by
      intro a
      by_cases hps : (entryLoop symOracle m cs).2.1 = [] <;>
        simp [hps, emitCount, countPairs]
    refine ⟨?_, ?_, ?_, ?_⟩
    · intro a s h
      rw [he]
      exact ih1 a s (e1 a s h)
    · intro a
      rw [he, emitCount_append, hstepEmit a, ih2 a, e3 a]
      by_cases hm : (lookup_stackframe m a).isSome
      · have hE : (lookup_stackframe (entryLoop symOracle m cs).2.2 a).isSome := by
          obtain ⟨s, hs⟩ := Option.isSome_iff_exists.1 hm
          exact Option.isSome_iff_exists.2 ⟨s, e1 a s hs⟩
        simp [hm, hE]
      · by_cases hE : (lookup_stackframe (entryLoop symOracle m cs).2.2 a).isSome
        · have hfin :
              (lookup_stackframe
                (recordTrace symOracle (entryLoop symOracle m cs).2.2 rest).2
                a).isSome := by
            obtain ⟨s, hs⟩ := Option.isSome_iff_exists.1 hE
            exact Option.isSome_iff_exists.2 ⟨s, ih1 a s hs⟩
          simp [hm, hE, hfin]
        · simp [hm, hE]
    · intro a ha
      rw [he] at ha ⊢
      rw [usedInTrace_append] at ha
      rw [Bool.or_eq_true] at ha
      rcases ha with hstep | hrest
      · have hker : usedInTrace a
            ((if (entryLoop symOracle m cs).2.1 = [] then []
                else [TraceEvent.syms (entryLoop symOracle m cs).2.1]) ++
              [TraceEvent.call eid (entryLoop symOracle m cs).1]) =
            (entryLoop symOracle m cs).1.contains a := by
          by_cases hps : (entryLoop symOracle m cs).2.1 = [] <;>
            simp [hps, usedInTrace]
        rw [hker] at hstep
        have hmem : a ∈ (entryLoop symOracle m cs).1 := by
          simpa using hstep
        obtain ⟨s, hs⟩ := Option.isSome_iff_exists.1 (e4 a hmem)
        exact Option.isSome_iff_exists.2 ⟨s, ih1 a s hs⟩
      · exact ih3 a hrest
    · intro a
      rw [he]
      have hcontains : (entryLoop symOracle m cs).1.contains a = true →
          (lookup_stackframe (entryLoop symOracle m cs).2.2 a).isSome = true := by
        intro hc
        exact e4 a (by simpa using hc)
      by_cases hps : (entryLoop symOracle m cs).2.1 = []
      · have hS : (if (entryLoop symOracle m cs).2.1 = [] then []
            else [TraceEvent.syms (entryLoop symOracle m cs).2.1]) ++
              [TraceEvent.call eid (entryLoop symOracle m cs).1] ++
            (recordTrace symOracle (entryLoop symOracle m cs).2.2 rest).1 =
            TraceEvent.call eid (entryLoop symOracle m cs).1 ::
              (recordTrace symOracle (entryLoop symOracle m cs).2.2 rest).1 := by
          simp [hps]
        rw [hS]
        have hseen : (lookup_stackframe (entryLoop symOracle m cs).2.2 a).isSome
            = (lookup_stackframe m a).isSome := by
          rw [e2 a, hps]; simp
        simp only [symsBeforeUse]
        rw [Bool.and_eq_true]
        constructor
        · rcases hc : (entryLoop symOracle m cs).1.contains a with _ | _
          · simp
          · have h2 := hcontains hc
            rw [hseen] at h2
            simp [h2]
        · have h4 := ih4 a
          rw [hseen] at h4
          exact h4
      · have hS : (if (entryLoop symOracle m cs).2.1 = [] then []
            else [TraceEvent.syms (entryLoop symOracle m cs).2.1]) ++
              [TraceEvent.call eid (entryLoop symOracle m cs).1] ++
            (recordTrace symOracle (entryLoop symOracle m cs).2.2 rest).1 =
            TraceEvent.syms (entryLoop symOracle m cs).2.1 ::
              TraceEvent.call eid (entryLoop symOracle m cs).1 ::
              (recordTrace symOracle (entryLoop symOracle m cs).2.2 rest).1 := by
          simp [hps]
        rw [hS]
        simp only [symsBeforeUse]
        have hseen1 : ((lookup_stackframe m a).isSome ||
            (entryLoop symOracle m cs).2.1.any (fun p => p.1 == a)) =
            (lookup_stackframe (entryLoop symOracle m cs).2.2 a).isSome :=
          (e2 a).symm
        rw [hseen1, Bool.and_eq_true]
        constructor
        · rcases hc : (entryLoop symOracle m cs).1.contains a with _ | _
          · simp
          · simp [hcontains hc]
        · exact ih4 a

/-- C4: in a recording from a fresh frame map, every frame address used
in some call event's caller-info has its (address, symbol) pair emitted in
exactly one *new-callstack-symbols* event, that event precedes every call
event using the address, and the frame map itself is append-only across
the whole session. -/
theorem callstack_syms_once_before_use (symOracle : Nat → Option Nat)
    (calls : List (Nat × List Nat)) :
    (∀ (m : FrameMap) (a s : Nat), lookup_stackframe m a = some s →
      lookup_stackframe (recordTrace symOracle m calls).2 a = some s) ∧
    (∀ a, usedInTrace a (recordTrace symOracle [] calls).1 = true →
      emitCount a (recordTrace symOracle [] calls).1 = 1) ∧
    (∀ a, symsBeforeUse a false (recordTrace symOracle [] calls).1 = true) := by
  refine ⟨fun m => (recordTrace_spec symOracle calls m).1, fun a ha => ?_, fun a => ?_⟩
  · obtain ⟨-, h2, h3, -⟩ := recordTrace_spec symOracle calls []
    have hsome := h3 a ha
    have hnil : lookup_stackframe [] a = none := rfl
    rw [h2 a, hnil]
    simp [hsome]
  · obtain ⟨-, -, -, h4⟩ := recordTrace_spec symOracle calls []
    exact h4 a

/-- Witness for C4: two wrapped calls, the second reusing frame 100; the
symbol pair for 100 is emitted exactly once even though 100 appears in
both call events, and the emission precedes all uses. -/
theorem callstack_syms_once_before_use_witness :
    usedInTrace 100 (recordTrace
        (fun a => if a = 100 then some 1000 else
          if a = 101 then some 1001 else none) []
        [(1, [100, 101]), (2, [100])]).1 = true ∧
    emitCount 100 (recordTrace
        (fun a => if a = 100 then some 1000 else
          if a = 101 then some 1001 else none) []
        [(1, [100, 101]), (2, [100])]).1 = 1 ∧
    symsBeforeUse 100 false (recordTrace
        (fun a => if a = 100 then some 1000 else
          if a = 101 then some 1001 else none) []
        [(1, [100, 101]), (2, [100])]).1 = true :=
  ⟨by decide,
   (callstack_syms_once_before_use
      (fun a => if a = 100 then some 1000 else
        if a = 101 then some 1001 else none)
      [(1, [100, 101]), (2, [100])]).2.1 100 (by decide),
   (callstack_syms_once_before_use
      (fun a => if a = 100 then some 1000 else
        if a = 101 then some 1001 else none)
      [(1, [100, 101]), (2, [100])]).2.2 100⟩

/-- C5 counterexample: with symbolication failing on every address, the
call event's caller-info is empty — the failing frame 42 does *not*
appear in the trace (and the frame 43 below it is dropped too), and no
NULL-string mapping is emitted, contrary to the claim. -/
theorem failed_symbolication_drops_frame :
    (IO_ENTRYINFO_record (fun _ => none) [] 7 [42, 43]).1 =
      [TraceEvent.call 7 []] ∧
    usedInTrace 42 (IO_ENTRYINFO_record (fun _ => none) [] 7 [42, 43]).1
      = false ∧
    emitCount 42 (IO_ENTRYINFO_record (fun _ => none) [] 7 [42, 43]).1
      = 0 := by
  refine ⟨by decide, by decide, by decide⟩

theorem entryLoop_append (symOracle : Nat → Option Nat)
    (pre rest : List Nat) :
    ∀ m : FrameMap, (entryLoop symOracle m pre).1 = pre →
      entryLoop symOracle m (pre ++ rest) =
        (pre ++ (entryLoop symOracle (entryLoop symOracle m pre).2.2 rest).1,
         (entryLoop symOracle m pre).2.1 ++
           (entryLoop symOracle (entryLoop symOracle m pre).2.2 rest).2.1,
         (entryLoop symOracle (entryLoop symOracle m pre).2.2 rest).2.2) := by
  induction pre with
  | nil =>
    intro m _
    simp [entryLoop]
  | cons f pre ih =>
    intro m hkeep
    rcases hg : get_callstack_sym symOracle m f with ⟨str, seen, m1⟩
    rcases str with _ | s
    · rcases seen with _ | _
      · exfalso
        have : (entryLoop symOracle m (f :: pre)).1 = [] := by
          simp [entryLoop, hg]
        rw [hkeep] at this
        cases this
      · have hkeep' : (entryLoop symOracle m1 pre).1 = pre := by
          have := hkeep
          simp only [entryLoop, hg] at this
          exact List.cons_injective.eq_iff.1 this
        have hih := ih m1 hkeep'
        simp only [entryLoop, hg] at hkeep ⊢
        simp [List.cons_append, entryLoop, hg, hih]
    · have hkeep' : (entryLoop symOracle m1 pre).1 = pre := by
        have := hkeep
        simp only [entryLoop, hg] at this
        exact List.cons_injective.eq_iff.1 this
      have hih := ih m1 hkeep'
      rcases seen with _ | _
      · simp only [entryLoop, hg] at hkeep ⊢
        simp [List.cons_append, entryLoop, hg, hih]
      · simp only [entryLoop, hg] at hkeep ⊢
        simp [List.cons_append, entryLoop, hg, hih]

/-- C5 amended: a captured frame whose symbolication fails (and which is
not already interned) truncates the callstack there — the call event's
caller-info is exactly the frames above it, the failing frame and all
frames below it are dropped, and no mapping is emitted for them. -/
theorem failed_symbolication_truncates (symOracle : Nat → Option Nat)
    (m : FrameMap) (pre : List Nat) (f : Nat) (post : List Nat)
    (hkeep : (entryLoop symOracle m pre).1 = pre)
    (hmiss : lookup_stackframe (entryLoop symOracle m pre).2.2 f = none)
    (hfail : symOracle f = none) :
    entryLoop symOracle m (pre ++ f :: post) =
      (pre, (entryLoop symOracle m pre).2.1,
        (entryLoop symOracle m pre).2.2) := by
  rw [entryLoop_append symOracle pre (f :: post) m hkeep]
  have hbreak : entryLoop symOracle (entryLoop symOracle m pre).2.2
      (f :: post) = ([], [], (entryLoop symOracle m pre).2.2) := by
    simp [entryLoop, get_callstack_sym, hmiss, hfail]
  rw [hbreak]
  simp

/-- Witness for C5 (amended): frame 100 symbolicates, frame 42 does not;
the loop keeps exactly `[100]`, drops 42 and the 43 below it, and emits
only the pair for 100. -/
theorem failed_symbolication_truncates_witness :
    entryLoop (fun a => if a = 100 then some 1000 else none) []
        ([100] ++ 42 :: [43]) = ([100], [(100, 1000)], [(100, 1000)]) :=
  failed_symbolication_truncates
    (fun a => if a = 100 then some 1000 else none) [] [100] 42 [43]
    (by decide) (by decide) (by decide)

/-! ## Array-argument serialization (C8)

`IO_ALSIZEI` (altrace_record.c:188) writes an `ALsizei` as a **64-bit**
value (`IO_UINT64((uint64) x)`), and `alGenSources` (1760) serializes its
name array as `IO_ALSIZEI(n); IO_PTR(names); IO_UINT32(names[i])…`.
The value-array calls such as `alListenerfv` (1378) instead write their
element count with `IO_UINT32(numvals)`.  Floats travel as their 32-bit
bit patterns, already `Nat` here. -/

/-- The argument bytes of an `alGenSources` call event, after the
caller-info block. -/
def alGenSources_args (n ptr : Nat) (names : List Nat) : List Nat :=
  leBytes 8 n ++ leBytes 8 ptr ++ (names.map (leBytes 4)).flatten

/-- The claim's shape for the same arguments — a `uint32` element count
before the array, everything else identical.  This follows the spec's
words, for comparison with `alGenSources_args` built from the code. -/
def alGenSources_args_specShape (n ptr : Nat) (names : List Nat) : List Nat :=
  leBytes 4 n ++ leBytes 8 ptr ++ (names.map (leBytes 4)).flatten

/-- `alListenerfv` argument bytes: enum, values pointer, `uint32` count,
float bit patterns. -/
def alListenerfv_args (param ptr numvals : Nat) (values : List Nat) :
    List Nat :=
  leBytes 4 param ++ leBytes 8 ptr ++ leBytes 4 numvals ++
    (values.map (leBytes 4)).flatten

/-- C8 counterexample: the `alGenSources` name-array count is not a
32-bit field — the code's encoding differs from the uint32-count shape
the claim prescribes (already in length: 20 bytes versus 16). -/
theorem alGenSources_count_not_uint32 :
    alGenSources_args 1 3 [5] ≠ alGenSources_args_specShape 1 3 [5] := by
  decide

/-- C8 amended: array counts of `ALsizei` parameters (the
`alGenSources` / `alDeleteSources` name arrays) are serialized as 64-bit
values — the player's 64-bit count read recovers `n` — while value-array
counts such as `alListenerfv`'s `numvals` are serialized as `uint32`,
each followed by the elements in declaration order. -/
theorem array_count_widths (n ptr : Nat) (names : List Nat)
    (param vptr numvals : Nat) (values : List Nat)
    (hn : n < 2 ^ 64) (hv : numvals < 2 ^ 32) :
    readLE 8 (alGenSources_args n ptr names) =
      some (n, leBytes 8 ptr ++ (names.map (leBytes 4)).flatten) ∧
    readLE 4 ((alListenerfv_args param vptr numvals values).drop 12) =
      some (numvals, (values.map (leBytes 4)).flatten) := by
  constructor
  · rw [alGenSources_args, List.append_assoc, readLE_leBytes]
    rw [Nat.mod_eq_of_lt (by simpa using hn)]
  · have hdrop : (alListenerfv_args param vptr numvals values).drop 12 =
        leBytes 4 numvals ++ (values.map (leBytes 4)).flatten := by
      rw [alListenerfv_args, List.append_assoc]
      rw [List.drop_left' (by simp [leBytes_length])]
    rw [hdrop, readLE_leBytes]
    rw [Nat.mod_eq_of_lt (by simpa using hv)]

/-- Witness for C8 (amended) at a concrete `alGenSources(2, …)` carrying
names `[5, 6]` and an `alListenerfv(AL_POSITION, …)` with three floats. -/
theorem array_count_widths_witness :
    readLE 8 (alGenSources_args 2 9 [5, 6]) =
      some (2, leBytes 8 9 ++ ([5, 6].map (leBytes 4)).flatten) ∧
    readLE 4 ((alListenerfv_args 4100 9 3 [70, 71, 72]).drop 12) =
      some (3, ([70, 71, 72].map (leBytes 4)).flatten) :=
  ⟨(array_count_widths 2 9 [5, 6] 4100 9 3 [70, 71, 72]
      (by decide) (by decide)).1,
   (array_count_widths 2 9 [5, 6] 4100 9 3 [70, 71, 72]
      (by decide) (by decide)).2⟩

/-! ## Player header check and event loop (C7)

`init_altrace_playback` (altrace_playback.c:247) reads two `uint32`
values; a magic or version mismatch prints a diagnostic, fails, and
`process_tracelog` (1931) then returns 0 immediately — without any
visitor callback.  Inside the loop: a latched io failure or an
unrecognized tag invokes `visit_eos(AL_FALSE, 0)` and sets retval 0; a
refused progress hook does the same with retval -1; `ALEE_EOS` decodes
the final timestamp and invokes `visit_eos(AL_TRUE, ticks)`. -/

/-- Modelled from the spec: the magic and format-version constants live
in `altrace_common.h`, which is not under src/; the spec fixes only that
they are two little-endian `uint32` values compared exactly.  The
concrete numbers are placeholders — nothing below depends on them. -/
def ALTRACE_LOG_FILE_MAGIC : Nat := 0x0074414C

/-- Modelled from the spec: see `ALTRACE_LOG_FILE_MAGIC`. -/
def ALTRACE_LOG_FILE_FORMAT : Nat := 1

/-- Modelled from the spec: the event-tag value of the *eos* terminator
comes from the `EventEnum` of the missing common header; 0 is a
placeholder. -/
def ALEE_EOS : Nat := 0

inductive VisitorCall where
  | progress (off sz : Nat)
  | eos (clean : Bool) (ticks : Nat)
deriving DecidableEq

/-- Player read state: remaining input plus the latched `io_failure`. -/
structure PbState where
  input : List Nat
  io_failure : Bool
deriving DecidableEq

/-- `readle32` through `IO_UINT32`: returns 0 and latches the failure on
a short read; a latched failure short-circuits. -/
def pb_readU32 (s : PbState) : Nat × PbState :=
  if s.io_failure then (0, s)
  else
    match readLE 4 s.input with
    | some (v, rest) => (v, ⟨rest, false⟩)
    | none => (0, ⟨s.input, true⟩)

/-- `init_altrace_playback` on an opened stream: (okay, state after the
header, number of diagnostics printed). -/
def init_altrace_playback (input : List Nat) : Bool × PbState × Nat :=
  let r1 := pb_readU32 ⟨input, false⟩
  if r1.1 ≠ ALTRACE_LOG_FILE_MAGIC then (false, r1.2, 1)
  else
    let r2 := pb_readU32 r1.2
    if r2.1 ≠ ALTRACE_LOG_FILE_FORMAT then (false, r2.2, 1)
    else (true, r2.2, 0)

/-- The event loop of `process_tracelog`.  The per-tag decoders of the
recognized non-eos tags are macro-generated from `altrace_entrypoints.h`
(not under src/), so the loop is parameterized by a `dispatch` table:
`dispatch tag = none` means the reader does not recognize `tag`; a
recognized decoder consumes payload bytes, makes visitor calls, and may
latch an io failure.  `fuel` bounds the model's recursion only; the
theorems below never exhaust it. -/
def process_loop
    (dispatch : Nat → Option (List Nat → List VisitorCall × List Nat × Bool))
    (progressOk : Nat → Bool) (total : Nat) :
    Nat → PbState → Nat → Int × List VisitorCall
  | 0, _, _ => (1, [])
  | fuel + 1, st, iter =>
    if st.io_failure then (0, [VisitorCall.eos false 0])
    else
      let off := total - st.input.length
      if progressOk iter = false then
        (-1, [VisitorCall.progress off total, VisitorCall.eos false 0])
      else
        let r := pb_readU32 st
        if r.1 = ALEE_EOS then
          let r2 := pb_readU32 r.2
          (1, [VisitorCall.progress off total] ++
            (if r2.2.io_failure then [] else [VisitorCall.eos true r2.1]))
        else
          match dispatch r.1 with
          | some dec =>
            let d := dec r.2.input
            let rr := process_loop dispatch progressOk total fuel
              ⟨d.2.1, d.2.2⟩ (iter + 1)
            (rr.1, [VisitorCall.progress off total] ++ d.1 ++ rr.2)
          | none =>
            (0, [VisitorCall.progress off total, VisitorCall.eos false 0])

/-- `process_tracelog`: (return value, visitor calls in order, number of
diagnostics printed). -/
def process_tracelog
    (dispatch : Nat → Option (List Nat → List VisitorCall × List Nat × Bool))
    (progressOk : Nat → Bool) (input : List Nat) :
    Int × List VisitorCall × Nat :=
  let ini := init_altrace_playback input
  if ini.1 = false then (0, [], ini.2.2)
  else
    let st := ini.2.1
    let r := process_loop dispatch progressOk input.length
      (st.input.length + 1) st 0
    (r.1, r.2, ini.2.2)

/-- C7 counterexample: on a stream whose magic does not match, the player
prints a diagnostic and returns the failure indicator 0, but the visitor
call list is empty — in particular no `eos(clean_flag=false)` callback is
made, contrary to the claim that bad magic behaves like an unrecognized
event tag. -/
theorem bad_magic_makes_no_visitor_call :
    process_tracelog (fun _ => none) (fun _ => true)
        (leBytes 4 0xDEADBEEF ++ leBytes 4 ALTRACE_LOG_FILE_FORMAT) =
      (0, [], 1) ∧
    ((process_tracelog (fun _ => none) (fun _ => true)
        (leBytes 4 0xDEADBEEF ++ leBytes 4 ALTRACE_LOG_FILE_FORMAT)).2.1.contains
      (VisitorCall.eos false 0)) = false := by
  refine ⟨by decide, by decide⟩

/-- C7 amended: a magic or format-version mismatch prints a diagnostic
and returns the failure indicator 0 *without invoking any visitor
callback* (the eos callback included); only an unrecognized event tag
after a valid header invokes `eos(clean_flag=false)` (with no diagnostic)
before returning 0. -/
theorem player_fatal_paths (dispatch :
      Nat → Option (List Nat → List VisitorCall × List Nat × Bool))
    (progressOk : Nat → Bool) :
    (∀ (b : Nat) (rest : List Nat), b < 2 ^ 32 →
      b ≠ ALTRACE_LOG_FILE_MAGIC →
      process_tracelog dispatch progressOk (leBytes 4 b ++ rest) =
        (0, [], 1)) ∧
    (∀ (v : Nat) (rest : List Nat), v < 2 ^ 32 →
      v ≠ ALTRACE_LOG_FILE_FORMAT →
      process_tracelog dispatch progressOk
          (leBytes 4 ALTRACE_LOG_FILE_MAGIC ++ leBytes 4 v ++ rest) =
        (0, [], 1)) ∧
    (∀ (tag : Nat) (rest : List Nat), tag < 2 ^ 32 → tag ≠ ALEE_EOS →
      dispatch tag = none → progressOk 0 = true →
      process_tracelog dispatch progressOk
          (leBytes 4 ALTRACE_LOG_FILE_MAGIC ++ leBytes 4 ALTRACE_LOG_FILE_FORMAT
            ++ leBytes 4 tag ++ rest) =
        (0, [VisitorCall.progress 8 (12 + rest.length),
             VisitorCall.eos false 0], 0)) := by
  refine ⟨?_, ?_, ?_⟩
  · intro b rest hb hne
    rw [process_tracelog, init_altrace_playback, pb_readU32]
    simp only [if_neg (by simp : ¬ (false = true))]
    rw [readLE_leBytes, Nat.mod_eq_of_lt (by simpa using hb)]
    simp [hne]
  · intro v rest hv hne
    rw [process_tracelog, init_altrace_playback, pb_readU32]
    simp only [if_neg (by simp : ¬ (false = true))]
    rw [List.append_assoc, readLE_leBytes,
      Nat.mod_eq_of_lt (by decide : ALTRACE_LOG_FILE_MAGIC < 2 ^ (8 * 4))]
    simp only [ne_eq, not_true_eq_false, if_false]
    rw [pb_readU32]
    simp only [if_neg (by simp : ¬ (false = true))]
    rw [readLE_leBytes, Nat.mod_eq_of_lt (by simpa using hv)]
    simp [hne]
  · intro tag rest htag hne hdisp hprog
    rw [process_tracelog, init_altrace_playback, pb_readU32]
    simp only [if_neg (by simp : ¬ (false = true))]
    rw [List.append_assoc, List.append_assoc, readLE_leBytes,
      Nat.mod_eq_of_lt (by decide : ALTRACE_LOG_FILE_MAGIC < 2 ^ (8 * 4))]
    simp only [ne_eq, not_true_eq_false, if_false]
    rw [pb_readU32]
    simp only [if_neg (by simp : ¬ (false = true))]
    rw [readLE_leBytes,
      Nat.mod_eq_of_lt (by decide : ALTRACE_LOG_FILE_FORMAT < 2 ^ (8 * 4))]
    simp only [ne_eq, not_true_eq_false, if_false]
    rw [process_loop]
    simp only [if_neg (by simp : ¬ (false = true)), hprog]
    rw [pb_readU32]
    simp only [if_neg (by simp : ¬ (false = true))]
    rw [readLE_leBytes, Nat.mod_eq_of_lt (by simpa using htag)]
    simp only [hne, hdisp, List.length_append, leBytes_length, ne_eq,
      not_false_eq_true, if_true, if_false, ite_false, ite_true]
    simp [hne, hdisp]
    omega

/-- Witness for C7 (amended): concrete streams exercising all three
paths — wrong magic, wrong version, and a good header followed by the
unrecognized tag 999. -/
theorem player_fatal_paths_witness :
    process_tracelog (fun _ => none) (fun _ => true)
        (leBytes 4 7 ++ [1, 2, 3]) = (0, [], 1) ∧
    process_tracelog (fun _ => none) (fun _ => true)
        (leBytes 4 ALTRACE_LOG_FILE_MAGIC ++ leBytes 4 99 ++ [1]) =
      (0, [], 1) ∧
    process_tracelog (fun _ => none) (fun _ => true)
        (leBytes 4 ALTRACE_LOG_FILE_MAGIC ++ leBytes 4 ALTRACE_LOG_FILE_FORMAT
          ++ leBytes 4 999 ++ [1, 2]) =
      (0, [VisitorCall.progress 8 14, VisitorCall.eos false 0], 0) :=
  ⟨(player_fatal_paths (fun _ => none) (fun _ => true)).1 7 [1, 2, 3]
      (by decide) (by decide),
   (player_fatal_paths (fun _ => none) (fun _ => true)).2.1 99 [1]
      (by decide) (by decide),
   (player_fatal_paths (fun _ => none) (fun _ => true)).2.2 999 [1, 2]
      (by decide) (by decide) rfl rfl⟩

end ALTrace
